import Mathlib

/-!
# DiskTree — verification of the scanning, aggregation and trash subsystems

Shallow embedding of the Go program `disktree` (a terminal disk-usage
explorer).  The embedding models:

* the filesystem seen through `os.ReadDir` / `DirEntry.Info` as an inductive
  tree (`Entry`), where a directory whose listing cannot be read is a
  `baddir` carrying an error identifier, and a file or symlink whose
  metadata read (`Info`) fails carries `infoOk = false`;
* `Scanner.sumDir` (the spec's `summarize`) as a deterministic fold over
  that tree, serialising the bounded worker pool in depth-first spawn
  order (one admissible schedule of the Go goroutines);
* `Scanner.scanDir` (the spec's `buildLevel`) including its cache check;
* the incremental scan session `model.startIncrementalScan` as an event
  list, again in the spawn-order schedule (per-entry event ordering and
  the ScanDone-last property are schedule independent in the Go code,
  because the placeholder update is sent before the worker is spawned and
  `ScanDone` is sent only after `wg.Wait()`);
* the Bubble Tea `model.Update` handlers for `childUpdateMsg` and
  `scanDoneMsg` (display state only; UI strings and timers are abstracted
  into explicit boolean/integer inputs);
* `moveToTrash` / `restoreFromTrash` over a flat path-indexed store in
  which `os.Rename` success is an explicit boolean input (it fails e.g.
  across devices), and `copyDir`/`copyFile` place an object equal to the
  source at the destination;
* the `u`-key undo handler over the trash history stack.

Go `int64` values (sizes and counts) are modelled as `Int`; the program
performs no wrap-around-dependent arithmetic on them.
-/

namespace DiskTree

/-- One filesystem entry as observed through `os.ReadDir`:
a regular file (with the size and success flag of its `Info` call),
a symbolic link (whose `DirEntry.IsDir` is `false` and whose `Info`
describes the link itself), a readable directory with its listing,
or a directory whose `os.ReadDir` fails with error `errId`. -/
inductive Entry : Type where
  | file (name : String) (size : Int) (infoOk : Bool)
  | symlink (name : String) (size : Int) (infoOk : Bool)
  | dir (name : String) (ents : List Entry)
  | baddir (name : String) (errId : Nat)
deriving Repr

/-- The name of an entry (the `e.Name()` of the Go `DirEntry`). -/
def Entry.name : Entry → String
  | .file n _ _ => n
  | .symlink n _ _ => n
  | .dir n _ => n
  | .baddir n _ => n

/-- Whether `e.IsDir()` is true for the entry (symlinks report `false`
because `os.ReadDir` does not follow them when typing entries). -/
def Entry.isDirLike : Entry → Bool
  | .dir _ _ => true
  | .baddir _ _ => true
  | _ => false

/-- Result record of `Scanner.sumDir` (`type dirSum struct`). -/
structure dirSum where
  size : Int
  files : Int
  dirs : Int
  err : Option Nat
deriving Repr, DecidableEq

/-- The zero accumulator of `sumDir`'s shared counters. -/
def dsZero : dirSum := ⟨0, 0, 0, none⟩

/-- First-error-wins combination: `sumDir`'s `errs` channel has capacity 1
and errors are sent with a non-blocking `select`, so once an error is
recorded every later error is dropped. -/
def oFirst : Option Nat → Option Nat → Option Nat
  | some e, _ => some e
  | none, b => b

/-- Combining the contributions of two traversal segments: counters add,
the earlier error (in traversal order) is kept. -/
def dsAdd (a b : dirSum) : dirSum :=
  ⟨a.size + b.size, a.files + b.files, a.dirs + b.dirs, oFirst a.err b.err⟩

mutual
/-- Contribution of one directory entry to `sumDir`'s shared counters, in
the depth-first spawn-order schedule of `walk`: a symlink is skipped unless
following is enabled (a followed symlink takes the non-directory branch and
contributes its own `Info` size); a file whose `Info` succeeds adds its size
and one to `files`; a directory entry adds one to `dirs` and then its
subtree is walked; an unreadable directory adds one to `dirs` and sends its
read error to the `errs` channel. -/
def entrySum (follow : Bool) : Entry → dirSum
  | .file _ sz ok => if ok then ⟨sz, 1, 0, none⟩ else dsZero
  | .symlink _ sz ok =>
      if follow then (if ok then ⟨sz, 1, 0, none⟩ else dsZero) else dsZero
  | .dir _ ents => dsAdd ⟨0, 0, 1, none⟩ (listSum follow ents)
  | .baddir _ e => ⟨0, 0, 1, some e⟩

/-- `walk` over a directory listing, entries in order. -/
def listSum (follow : Bool) : List Entry → dirSum
  | [] => dsZero
  | e :: es => dsAdd (entrySum follow e) (listSum follow es)
end

/-- `Scanner.sumDir`: the root listing is read first; if that read fails
the error is recorded and the zero totals are returned, otherwise the
whole subtree is walked. -/
def sumDir (follow : Bool) : Except Nat (List Entry) → dirSum
  | .error e => ⟨0, 0, 0, some e⟩
  | .ok ents => listSum follow ents

/-- A path, as a list of segments; `path ++ [name]` models
`filepath.Join(path, name)`. -/
abbrev Path := List String

/-- `filepath.Base`, on segment lists: the last segment (display only). -/
def baseName (p : Path) : String := p.getLast?.getD ""

/-- The Go `Node` struct.  `size` is `Int` because the incremental scan
uses `-1` as the "still scanning" sentinel; `err` is the identifier of the
recorded read error, if any. -/
structure Node where
  name : String
  path : Path
  size : Int
  files : Int
  dirs : Int
  children : List Node
  err : Option Nat
  scanned : Bool
deriving Repr

/-- The global `cache sync.Map` keyed by path; a store prepends, a lookup
takes the most recent binding, so a store overwrites. -/
abbrev Cache := List (Path × Node)

/-- `cache.Load`. -/
def cacheLookup (c : Cache) (p : Path) : Option Node :=
  (c.find? (fun kv => kv.1 = p)).map (·.2)

/-- `cache.Store` (single key/value replacement). -/
def cacheStore (c : Cache) (p : Path) (n : Node) : Cache := (p, n) :: c

/-- The child `Node` built by `scanDir` (and by the incremental scan) for a
non-directory entry: `child := &Node{Name, Path}` and, if `e.Info()`
succeeds, `child.Size = fi.Size(); child.Files = 1`. -/
def fileChild (parent : Path) (n : String) (sz : Int) (ok : Bool) : Node :=
  { name := n, path := parent ++ [n],
    size := if ok then sz else 0,
    files := if ok then 1 else 0,
    dirs := 0, children := [], err := none, scanned := false }

/-- The child `Node` a `sumDir` worker fills in for a directory entry:
`nd.Size, nd.Files, nd.Dirs, nd.Err = res.size, res.files, res.dirs,
res.err`; `none` for entries that are not directories. -/
def dirNode (follow : Bool) (parent : Path) : Entry → Option Node
  | .dir n ents =>
      let res := listSum follow ents
      some { name := n, path := parent ++ [n],
             size := res.size, files := res.files, dirs := res.dirs,
             children := [], err := res.err, scanned := false }
  | .baddir n e =>
      some { name := n, path := parent ++ [n], size := 0, files := 0,
             dirs := 0, children := [], err := some e, scanned := false }
  | _ => none

/-- One fully computed child of the scanned level: symlinks are skipped
unless following is enabled (a followed symlink takes the file branch);
directory entries get the totals their `sumDir` worker computes. -/
def childNode (follow : Bool) (parent : Path) : Entry → Option Node
  | .file n sz ok => some (fileChild parent n sz ok)
  | .symlink n sz ok =>
      if follow then some (fileChild parent n sz ok) else none
  | e => dirNode follow parent e

/-- Accumulator of `scanDir`'s aggregation loop over the children. -/
structure scanAcc where
  size : Int
  files : Int
  dirs : Int
  err : Option Nat
deriving Repr, DecidableEq

/-- One step of `scanDir`'s aggregation loop: `total += c.Size`; files and
dirs are added only under the `c.Dirs > 0 || c.Files > 0` guard; the last
non-nil child error wins. -/
def scanStep (a : scanAcc) (c : Node) : scanAcc :=
  { size := a.size + c.size,
    files := if c.dirs > 0 ∨ c.files > 0 then a.files + c.files else a.files,
    dirs := if c.dirs > 0 ∨ c.files > 0 then a.dirs + c.dirs else a.dirs,
    err := if c.err.isSome then c.err else a.err }

/-- `scanDir`'s aggregation loop over the built children. -/
def scanAgg (cs : List Node) : scanAcc := cs.foldl scanStep ⟨0, 0, 0, none⟩

/-- `Scanner.scanDir` (the spec's `buildLevel`).  The cache is consulted
first; on a miss, a failing root listing yields the bare named node with
only `Err` set (note: `Scanned` is left `false` on this branch); otherwise
one level of children is built, each directory child summarised by a
`sumDir` worker, and the children are aggregated. -/
def scanDir (follow : Bool) (c : Cache) (p : Path)
    (root : Except Nat (List Entry)) : Node :=
  match cacheLookup c p with
  | some n => n
  | none =>
    match root with
    | .error e => { name := baseName p, path := p, size := 0, files := 0,
                    dirs := 0, children := [], err := some e,
                    scanned := false }
    | .ok ents =>
      let cs := ents.filterMap (childNode follow p)
      let a := scanAgg cs
      { name := baseName p, path := p,
        size := a.size, files := a.files, dirs := a.dirs,
        children := cs, err := a.err, scanned := true }

/-- The messages the scan goroutine sends on its channel
(`childUpdateMsg` and `scanDoneMsg`). -/
inductive Event : Type where
  | childUpdate (parent : Path) (child : Node) (token : Nat)
  | scanDone (node : Node) (token : Nat)
deriving Repr

/-- The placeholder child sent immediately for a directory entry:
`child.Size = -1 // sentinel for "scanning"`. -/
def placeholderChild (parent : Path) (n : String) : Node :=
  { name := n, path := parent ++ [n], size := -1, files := 0, dirs := 0,
    children := [], err := none, scanned := false }

/-- The event the listing loop sends inline for one entry: nothing for a
skipped symlink, the final update for a file (or followed symlink), the
sentinel placeholder update for a directory entry. -/
def inlineEvt (follow : Bool) (p : Path) (tok : Nat) : Entry → Option Event
  | .file n sz ok => some (.childUpdate p (fileChild p n sz ok) tok)
  | .symlink n sz ok =>
      if follow then some (.childUpdate p (fileChild p n sz ok) tok)
      else none
  | .dir n _ => some (.childUpdate p (placeholderChild p n) tok)
  | .baddir n _ => some (.childUpdate p (placeholderChild p n) tok)

/-- The event a directory entry's `sumDir` worker sends once it has filled
in the child's totals; `none` for non-directory entries, which spawn no
worker. -/
def finalEvt (follow : Bool) (p : Path) (tok : Nat) (e : Entry) :
    Option Event :=
  (dirNode follow p e).map (fun nd => .childUpdate p nd tok)

/-- Accumulator step of the session's final aggregation loop: all three
counters are added unconditionally and the last non-nil child error wins
(`lastErr`). -/
def sessStep (a : scanAcc) (c : Node) : scanAcc :=
  { size := a.size + c.size, files := a.files + c.files,
    dirs := a.dirs + c.dirs,
    err := if c.err.isSome then c.err else a.err }

/-- The session's final aggregation over the completed children. -/
def sessAgg (cs : List Node) : scanAcc := cs.foldl sessStep ⟨0, 0, 0, none⟩

/-- The fully aggregated node the session stores in the cache and carries
in its `scanDoneMsg`: children in listing order with their final totals. -/
def sessionNode (follow : Bool) (p : Path) (ents : List Entry) : Node :=
  let cs := ents.filterMap (childNode follow p)
  let a := sessAgg cs
  { name := baseName p, path := p,
    size := a.size, files := a.files, dirs := a.dirs,
    children := cs, err := a.err, scanned := true }

/-- The non-fast-path body of the scan goroutine, in the spawn-order
schedule: a failing root listing emits a single `scanDone` carrying the
errored node (with `Scanned: true` and no cache write); otherwise the
listing loop emits one inline event per entry, the directory workers then
emit their final updates, the aggregated node is stored in the cache and
`scanDone` is emitted last.  The third component counts the `sumDir`
workers spawned. -/
def sessionRun (follow : Bool) (c : Cache) (p : Path)
    (root : Except Nat (List Entry)) (tok : Nat) :
    List Event × Cache × Nat :=
  match root with
  | .error e =>
      ([.scanDone { name := baseName p, path := p, size := 0, files := 0,
                    dirs := 0, children := [], err := some e,
                    scanned := true } tok], c, 0)
  | .ok ents =>
      let n := sessionNode follow p ents
      (ents.filterMap (inlineEvt follow p tok)
         ++ ents.filterMap (finalEvt follow p tok)
         ++ [.scanDone n tok],
       cacheStore c p n,
       (ents.filter Entry.isDirLike).length)

/-- `model.startIncrementalScan`'s goroutine: when the fast-cache flag is
set and the cache holds a fully scanned node for the exact target path,
only `scanDone` with that node is emitted and no worker is spawned;
otherwise the body runs. -/
def scanSession (follow fast : Bool) (c : Cache) (p : Path)
    (root : Except Nat (List Entry)) (tok : Nat) :
    List Event × Cache × Nat :=
  match (if fast then cacheLookup c p else none) with
  | some n =>
      if n.scanned then ([.scanDone n tok], c, 0)
      else sessionRun follow c p root tok
  | none => sessionRun follow c p root tok

/-- The display-relevant state of the Bubble Tea `model`:
the active scan token, the current breadcrumb path, the displayed node
`current`, the shared cache, the debounce flags and the loading flag.
UI-only fields (status string, table, spinner, timers) are omitted; the
time- and counter-dependent inputs of the `scanDoneMsg` handler are passed
to it explicitly. -/
structure MState where
  scanToken : Nat
  curPath : Path
  current : Option Node
  cache : Cache
  pendingUpdates : Bool
  debounceActive : Bool
  loading : Bool
deriving Repr

/-- The fresh placeholder node `Update` creates when `current` is nil or
shows a different path. -/
def freshCurrent (p : Path) : Node :=
  { name := baseName p, path := p, size := 0, files := 0, dirs := 0,
    children := [], err := none, scanned := false }

/-- The merge loop of the `childUpdateMsg` handler: the first child with
the same path is replaced in place. -/
def replaceFirst : List Node → Node → List Node
  | [], _ => []
  | c :: cs, ch => if c.path = ch.path then ch :: cs else c :: replaceFirst cs ch

/-- Merge or append: replace the first child with the same path if one
exists, else append. -/
def mergeChild (cs : List Node) (ch : Node) : List Node :=
  if cs.any (fun c => c.path = ch.path) then replaceFirst cs ch else cs ++ [ch]

/-- The totals recomputation of the `childUpdateMsg` handler: only
strictly positive sizes are added (the `-1` sentinel therefore counts as
zero); files and dirs are added unconditionally. -/
def viewAgg (cs : List Node) : Int × Int × Int :=
  cs.foldl
    (fun a c =>
      ((if c.size > 0 then a.1 + c.size else a.1), a.2.1 + c.files,
        a.2.2 + c.dirs))
    (0, 0, 0)

/-- The `childUpdateMsg` branch of `model.Update`: a token mismatch leaves
the model untouched; otherwise the child is merged into (a placeholder
for) the current node, totals are recomputed, the snapshot is stored in
the cache and the debounce flags are set. -/
def applyChildUpdate (m : MState) (child : Node) (tok : Nat) : MState :=
  if tok ≠ m.scanToken then m
  else
    let base :=
      match m.current with
      | some n => if n.path = m.curPath then n else freshCurrent m.curPath
      | none => freshCurrent m.curPath
    let cs := mergeChild base.children child
    let t := viewAgg cs
    let cur : Node :=
      { base with children := cs, size := t.1, files := t.2.1, dirs := t.2.2 }
    { m with current := some cur,
             cache := cacheStore m.cache m.curPath cur,
             pendingUpdates := true, debounceActive := true }

/-- The `scanDoneMsg` branch of `model.Update`.  A stale token stores the
node in the cache and changes nothing else.  A matching token whose node
is the displayed path replaces `current`; whether `loading` is cleared
depends on the anti-flicker timer (`elapsedOk` stands for
`elapsed ≥ loadingMinDuration`) and on the process-wide scan counters,
passed in explicitly.  A matching token for another path only writes the
cache. -/
def applyScanDone (m : MState) (node : Node) (tok : Nat)
    (elapsedOk : Bool) (ongoing : Int) (scanInProgress : Bool) : MState :=
  if tok ≠ m.scanToken then
    { m with cache := cacheStore m.cache node.path node }
  else if node.path = m.curPath then
    let m1 := { m with current := some node }
    if ¬ elapsedOk then m1
    else if ongoing ≤ 1 ∧ ¬ scanInProgress then { m1 with loading := false }
    else m1
  else { m with cache := cacheStore m.cache node.path node }

/-- A filesystem object for the trash model: a regular file with its
contents or a directory with its named entries.  Moving, copying and
restoring never look inside the object, so a whole subtree is one value;
`copyDir`/`copyFile` place a value equal to the source at the
destination. -/
inductive FsObj : Type where
  | file (content : List Nat)
  | dir (entries : List (String × FsObj))
deriving Repr

/-- The filesystem as a flat store from absolute path to object; a store
prepends, a lookup takes the most recent binding. -/
abbrev FS := List (Path × FsObj)

/-- `os.Stat` / existence and content lookup. -/
def fsLookup (fs : FS) (p : Path) : Option FsObj :=
  (fs.find? (fun kv => kv.1 = p)).map (·.2)

/-- Removing the entry at a path (`os.Remove` / `os.RemoveAll`). -/
def fsErase (fs : FS) (p : Path) : FS := fs.filter (fun kv => ¬ kv.1 = p)

/-- Placing an object at a path (`os.Rename` target, or a completed
recursive copy). -/
def fsStore (fs : FS) (p : Path) (o : FsObj) : FS := (p, o) :: fsErase fs p

/-- The sidecar metadata path: `trashPath + ".meta.json"`, i.e. the suffix
is appended to the last path segment. -/
def metaPath (p : Path) : Path :=
  p.dropLast ++ [p.getLast?.getD "" ++ ".meta.json"]

/-- The Go `TrashItem` record (the JSON round-trips it unchanged, so the
metadata object's contents are irrelevant and modelled as an empty
file). -/
structure TrashItem where
  name : String
  trashPath : Path
  origPath : Path
  deletedAt : Int
  isDir : Bool
deriving Repr, DecidableEq

/-- `moveToTrash`.  `renameOk` tells whether `os.Rename` succeeds for this
pair of locations (it fails e.g. across devices); `sfx` is the random
suffix `uniqueSuffix()` would produce; `now` is the move timestamp.
Faithful details: the destination gets the suffix only when its base name
is already taken in the trash directory; on the rename path `IsDir` is
computed by statting the source after it was moved, hence always `false`;
on the copy path the source is removed and the metadata written after the
copy. -/
def moveToTrash (fs : FS) (renameOk : Bool) (sfx : String)
    (trashDir : Path) (now : Int) (src : Path) :
    Except Unit (FS × TrashItem) :=
  let base := baseName src
  let dst0 := trashDir ++ [base]
  let dst := if (fsLookup fs dst0).isSome then trashDir ++ [base ++ sfx]
             else dst0
  match fsLookup fs src with
  | none => .error ()
  | some obj =>
    if renameOk then
      let fs1 := fsStore (fsErase fs src) dst obj
      let ti : TrashItem :=
        { name := base, trashPath := dst, origPath := src,
          deletedAt := now, isDir := false }
      .ok (fsStore fs1 (metaPath dst) (.file []), ti)
    else
      let fs1 := fsErase (fsStore fs dst obj) src
      let ti : TrashItem :=
        { name := base, trashPath := dst, origPath := src,
          deletedAt := now,
          isDir := match obj with | .dir _ => true | _ => false }
      .ok (fsStore fs1 (metaPath dst) (.file []), ti)

/-- `restoreFromTrash`: move the held entry back to its original path,
suffixing the destination if that path is occupied; both the rename path
and the copy-then-delete fallback end by removing the sidecar metadata.
In this store model the two paths produce the same final state, and a
missing holding-area entry fails the restore. -/
def restoreFromTrash (fs : FS) (sfx : String) (ti : TrashItem) :
    Except Unit FS :=
  let dst0 := ti.origPath
  let dst := if (fsLookup fs dst0).isSome then
               dst0.dropLast ++ [dst0.getLast?.getD "" ++ sfx]
             else dst0
  match fsLookup fs ti.trashPath with
  | none => .error ()
  | some obj =>
      .ok (fsErase (fsStore (fsErase fs ti.trashPath) dst obj)
            (metaPath ti.trashPath))

/-- Outcome reported by the `u`-key handler via the status line. -/
inductive UndoStatus : Type where
  | nothingToRestore
  | expired
  | restoreFailed
  | restored
deriving Repr, DecidableEq

/-- The `u`-key (undo) branch of `model.Update`: with an empty history
nothing happens; the most recent item is *peeked* (not popped); an item
older than the undo window is dropped unused; then `restoreFromTrash`
runs, and only on success is the item popped. -/
def undoStep (fs : FS) (sfx : String) (hist : List TrashItem)
    (undoWindow now : Int) : FS × List TrashItem × UndoStatus :=
  match hist.getLast? with
  | none => (fs, hist, .nothingToRestore)
  | some ti =>
    if undoWindow > 0 ∧ now - ti.deletedAt > undoWindow then
      (fs, hist.dropLast, .expired)
    else
      match restoreFromTrash fs sfx ti with
      | .error _ => (fs, hist, .restoreFailed)
      | .ok fs2 => (fs2, hist.dropLast, .restored)

/-! ## Specification-side definitions

These follow the wording of the claims (not the code) and are compared
with the embedded operations. -/

mutual
/-- Spec side, claim C1: the exact number of bytes in the regular files of
one entry's subtree — symlinks and unreadable directories contribute
nothing (an unreadable directory exposes no contents). -/
def specBytesE : Entry → Int
  | .file _ sz _ => sz
  | .symlink _ _ _ => 0
  | .dir _ ents => specBytesL ents
  | .baddir _ _ => 0

/-- Spec side, claim C1: total regular-file bytes of a listing. -/
def specBytesL : List Entry → Int
  | [] => 0
  | e :: es => specBytesE e + specBytesL es
end

mutual
/-- Whether every regular file in the entry's subtree has a successful
metadata read. -/
def entryFilesOk : Entry → Bool
  | .file _ _ ok => ok
  | .symlink _ _ _ => true
  | .dir _ ents => listFilesOk ents
  | .baddir _ _ => true

/-- Whether every regular file in the listing's subtree has a successful
metadata read. -/
def listFilesOk : List Entry → Bool
  | [] => true
  | e :: es => entryFilesOk e && listFilesOk es
end

mutual
/-- Spec side, claim C1: the same tree with every symbolic link removed. -/
def stripSymlinksE : Entry → Entry
  | .file n sz ok => .file n sz ok
  | .symlink n sz ok => .symlink n sz ok
  | .dir n ents => .dir n (stripSymlinksL ents)
  | .baddir n e => .baddir n e

/-- Spec side, claim C1: remove symlinks from a listing, recursively. -/
def stripSymlinksL : List Entry → List Entry
  | [] => []
  | .symlink _ _ _ :: es => stripSymlinksL es
  | e :: es => stripSymlinksE e :: stripSymlinksL es
end

/-- Spec side, claim C2: the number of immediate child directories of a
listing (symlinks are never directory entries to `os.ReadDir`). -/
def immDirCount (ents : List Entry) : Int :=
  ((ents.filter Entry.isDirLike).length : Int)

mutual
/-- Spec side, claims C5/C10: the same tree with every unreadable
directory replaced by an empty readable one — the totals of the readable
portion of the tree. -/
def pruneE : Entry → Entry
  | .file n sz ok => .file n sz ok
  | .symlink n sz ok => .symlink n sz ok
  | .dir n ents => .dir n (pruneL ents)
  | .baddir n _ => .dir n []

/-- Spec side, claim C5: prune a listing's unreadable directories. -/
def pruneL : List Entry → List Entry
  | [] => []
  | e :: es => pruneE e :: pruneL es
end

mutual
/-- Spec side, claim C5: the directory read errors of an entry's subtree
in depth-first traversal order (symlinks are skipped when not followed, so
errors behind them are invisible; `follow` to match the walk). -/
def allErrsE (follow : Bool) : Entry → List Nat
  | .file _ _ _ => []
  | .symlink _ _ _ => []
  | .dir _ ents => allErrsL follow ents
  | .baddir _ e => [e]

/-- Spec side, claim C5: the directory read errors of a listing. -/
def allErrsL (follow : Bool) : List Entry → List Nat
  | [] => []
  | e :: es => allErrsE follow e ++ allErrsL follow es
end

mutual
/-- Spec side, claim C10: drop every regular file whose metadata read
fails, recursively; symlinks and directories are kept. -/
def dropBadInfoE : Entry → Option Entry
  | .file n sz ok => if ok then some (.file n sz ok) else none
  | .symlink n sz ok => some (.symlink n sz ok)
  | .dir n ents => some (.dir n (dropBadInfoL ents))
  | .baddir n e => some (.baddir n e)

/-- Spec side, claim C10: drop the metadata-failing files of a listing. -/
def dropBadInfoL : List Entry → List Entry
  | [] => []
  | e :: es =>
    match dropBadInfoE e with
    | some e' => e' :: dropBadInfoL es
    | none => dropBadInfoL es
end

/-- Whether an event is a `childUpdateMsg` for the child at path `q`. -/
def updFor (q : Path) : Event → Bool
  | .childUpdate _ ch _ => decide (ch.path = q)
  | .scanDone _ _ => false

/-- Whether an event is the session's `scanDoneMsg`. -/
def isDoneEvt : Event → Bool
  | .scanDone _ _ => true
  | _ => false

/-- Whether every top-level file entry of the listing has a successful
metadata read (what claim C3's "files = 1" presumes). -/
def topFilesOk (ents : List Entry) : Bool :=
  ents.all fun e =>
    match e with
    | .file _ _ ok => ok
    | _ => true

/-- The listing behind a directory entry, as the `os.ReadDir` result the
child's `sumDir` worker will see. -/
def subListing : Entry → Option (Except Nat (List Entry))
  | .dir _ ents => some (.ok ents)
  | .baddir _ e => some (.error e)
  | _ => none

/-! ## Lemmas about the traversal sums -/

theorem dsAdd_zero_left (a : dirSum) : dsAdd dsZero a = a := by
  cases a with
  | mk s f d e => simp [dsAdd, dsZero, oFirst]

mutual
/-- The shared `files` and `dirs` counters only ever get incremented. -/
theorem entrySum_counts_nonneg (follow : Bool) (e : Entry) :
    0 ≤ (entrySum follow e).files ∧ 0 ≤ (entrySum follow e).dirs := by
  cases e with
  | file n sz ok => cases ok <;> simp [entrySum, dsZero]
  | symlink n sz ok =>
      cases follow <;> cases ok <;> simp [entrySum, dsZero]
  | dir n ents =>
      have h := listSum_counts_nonneg follow ents
      constructor
      · simpa [entrySum, dsAdd] using h.1
      · simp only [entrySum, dsAdd]
        omega
  | baddir n e' => simp [entrySum]

/-- The counters of a whole listing are non-negative. -/
theorem listSum_counts_nonneg (follow : Bool) (es : List Entry) :
    0 ≤ (listSum follow es).files ∧ 0 ≤ (listSum follow es).dirs := by
  cases es with
  | nil => simp [listSum, dsZero]
  | cons e es =>
      have h1 := entrySum_counts_nonneg follow e
      have h2 := listSum_counts_nonneg follow es
      constructor
      · simp only [listSum, dsAdd]; omega
      · simp only [listSum, dsAdd]; omega
end

mutual
/-- With every file's metadata readable, one entry's contribution to the
shared size counter is exactly the regular-file byte total of its
subtree (symlink following disabled). -/
theorem entrySum_size_spec (e : Entry) (h : entryFilesOk e = true) :
    (entrySum false e).size = specBytesE e := by
  cases e with
  | file n sz ok =>
      simp [entryFilesOk] at h
      simp [entrySum, specBytesE, h]
  | symlink n sz ok => simp [entrySum, specBytesE, dsZero]
  | dir n ents =>
      simp only [entryFilesOk] at h
      simp [entrySum, specBytesE, dsAdd, entrySum_list_size_spec ents h]
  | baddir n e' => simp [entrySum, specBytesE]

/-- Listing-level version of `entrySum_size_spec`. -/
theorem entrySum_list_size_spec (es : List Entry)
    (h : listFilesOk es = true) :
    (listSum false es).size = specBytesL es := by
  cases es with
  | nil => simp [listSum, specBytesL, dsZero]
  | cons e es =>
      simp only [listFilesOk, Bool.and_eq_true] at h
      simp [listSum, specBytesL, dsAdd, entrySum_size_spec e h.1,
        entrySum_list_size_spec es h.2]
end

mutual
/-- Removing symbolic links from the tree does not change any of
`sumDir`'s results when following is disabled. -/
theorem entrySum_strip (e : Entry) :
    entrySum false (stripSymlinksE e) = entrySum false e := by
  cases e with
  | file n sz ok => simp [stripSymlinksE]
  | symlink n sz ok => simp [stripSymlinksE]
  | dir n ents => simp [stripSymlinksE, entrySum, listSum_strip ents]
  | baddir n e' => simp [stripSymlinksE]

/-- Listing-level version of `entrySum_strip`. -/
theorem listSum_strip (es : List Entry) :
    listSum false (stripSymlinksL es) = listSum false es := by
  cases es with
  | nil => simp [stripSymlinksL]
  | cons e es =>
      cases e with
      | symlink n sz ok =>
          have h1 : entrySum false (Entry.symlink n sz ok) = dsZero := by
            simp [entrySum]
          simp [stripSymlinksL, listSum, h1, dsAdd_zero_left,
            listSum_strip es]
      | file n sz ok =>
          simp [stripSymlinksL, listSum, listSum_strip es, entrySum_strip]
      | dir n ents =>
          simp [stripSymlinksL, listSum, listSum_strip es,
            entrySum_strip (Entry.dir n ents)]
      | baddir n e' =>
          simp [stripSymlinksL, listSum, listSum_strip es,
            entrySum_strip (Entry.baddir n e')]
end

/-- **C1.** For every directory tree in which every regular file's
metadata read succeeds, `summarize` (`Scanner.sumDir`) returns a size
equal to the exact sum of the sizes of all regular files in the subtree,
and — with symlink following disabled — skipping the symbolic links has no
effect on any of the returned totals. -/
theorem C1_summarize_size_exact (ents : List Entry)
    (h : listFilesOk ents = true) :
    (sumDir false (.ok ents)).size = specBytesL ents ∧
    sumDir false (.ok ents) = sumDir false (.ok (stripSymlinksL ents)) := by
  refine ⟨entrySum_list_size_spec ents h, ?_⟩
  simp [sumDir, listSum_strip]

/-- Witness for C1 on the spec's worked example
`(a/file1=100B, a/b/file2=200B, file3=300B)`. -/
theorem C1_summarize_size_exact_witness :
    (sumDir false (.ok
      [.dir "a" [.file "file1" 100 true, .dir "b" [.file "file2" 200 true]],
       .file "file3" 300 true])).size =
      specBytesL
        [.dir "a" [.file "file1" 100 true, .dir "b" [.file "file2" 200 true]],
         .file "file3" 300 true] :=
  (C1_summarize_size_exact
    [.dir "a" [.file "file1" 100 true, .dir "b" [.file "file2" 200 true]],
     .file "file3" 300 true] (by decide)).1

/-! ## Lemmas about `scanDir`'s aggregation loop -/

theorem foldl_scanStep_size (cs : List Node) :
    ∀ a : scanAcc, (cs.foldl scanStep a).size = a.size + (scanAgg cs).size := by
  induction cs with
  | nil => intro a; simp [scanAgg]
  | cons c cs ih =>
      intro a
      have h1 : ∀ b : scanAcc, (scanStep b c).size = b.size + c.size := by
        intro b; simp [scanStep]
      simp only [scanAgg, List.foldl_cons] at *
      rw [ih, ih (scanStep ⟨0, 0, 0, none⟩ c), h1, h1]
      ring

theorem foldl_scanStep_files (cs : List Node) :
    ∀ a : scanAcc,
      (cs.foldl scanStep a).files = a.files + (scanAgg cs).files := by
  induction cs with
  | nil => intro a; simp [scanAgg]
  | cons c cs ih =>
      intro a
      have h1 : ∀ b : scanAcc, (scanStep b c).files =
          b.files + (if c.dirs > 0 ∨ c.files > 0 then c.files else 0) := by
        intro b; by_cases h : c.dirs > 0 ∨ c.files > 0 <;> simp [scanStep, h]
      simp only [scanAgg, List.foldl_cons] at *
      rw [ih, ih (scanStep ⟨0, 0, 0, none⟩ c), h1, h1]
      ring

theorem foldl_scanStep_dirs (cs : List Node) :
    ∀ a : scanAcc, (cs.foldl scanStep a).dirs = a.dirs + (scanAgg cs).dirs := by
  induction cs with
  | nil => intro a; simp [scanAgg]
  | cons c cs ih =>
      intro a
      have h1 : ∀ b : scanAcc, (scanStep b c).dirs =
          b.dirs + (if c.dirs > 0 ∨ c.files > 0 then c.dirs else 0) := by
        intro b; by_cases h : c.dirs > 0 ∨ c.files > 0 <;> simp [scanStep, h]
      simp only [scanAgg, List.foldl_cons] at *
      rw [ih, ih (scanStep ⟨0, 0, 0, none⟩ c), h1, h1]
      ring

theorem scanAgg_cons_size (c : Node) (cs : List Node) :
    (scanAgg (c :: cs)).size = c.size + (scanAgg cs).size := by
  simp only [scanAgg, List.foldl_cons]
  rw [foldl_scanStep_size]
  simp [scanStep, scanAgg]

theorem scanAgg_cons_files (c : Node) (cs : List Node) :
    (scanAgg (c :: cs)).files =
      (if c.dirs > 0 ∨ c.files > 0 then c.files else 0) +
        (scanAgg cs).files := by
  simp only [scanAgg, List.foldl_cons]
  rw [foldl_scanStep_files]
  by_cases h : c.dirs > 0 ∨ c.files > 0 <;> simp [scanStep, scanAgg, h]

theorem scanAgg_cons_dirs (c : Node) (cs : List Node) :
    (scanAgg (c :: cs)).dirs =
      (if c.dirs > 0 ∨ c.files > 0 then c.dirs else 0) +
        (scanAgg cs).dirs := by
  simp only [scanAgg, List.foldl_cons]
  rw [foldl_scanStep_dirs]
  by_cases h : c.dirs > 0 ∨ c.files > 0 <;> simp [scanStep, scanAgg, h]

/-- The level aggregation of `scanDir` against the whole-subtree walk of
`sumDir`: the file counts agree, and the directory count of the level is
the walk's count minus one per immediate child directory, because a child
directory's `Dirs` value is added as-is and the child entry itself is
never counted. -/
theorem scanAgg_vs_listSum (follow : Bool) (p : Path) (ents : List Entry) :
    (scanAgg (ents.filterMap (childNode follow p))).files =
        (listSum follow ents).files ∧
      (scanAgg (ents.filterMap (childNode follow p))).dirs =
        (listSum follow ents).dirs - immDirCount ents := by
  induction ents with
  | nil => simp [scanAgg, listSum, dsZero, immDirCount]
  | cons e es ih =>
      have himm : immDirCount (e :: es) =
          (if e.isDirLike then 1 else 0) + immDirCount es := by
        cases e <;> simp [immDirCount, Entry.isDirLike, List.filter] <;> ring
      cases e with
      | file n sz ok =>
          cases ok with
          | true =>
              constructor
              · simpa [childNode, fileChild, listSum, entrySum, dsAdd,
                  scanAgg_cons_files] using ih.1
              · simpa [childNode, fileChild, listSum, entrySum, dsAdd, himm,
                  immDirCount, Entry.isDirLike, scanAgg_cons_dirs] using ih.2
          | false =>
              constructor
              · simpa [childNode, fileChild, listSum, entrySum, dsAdd, dsZero,
                  scanAgg_cons_files] using ih.1
              · simpa [childNode, fileChild, listSum, entrySum, dsAdd, dsZero,
                  himm, immDirCount, Entry.isDirLike,
                  scanAgg_cons_dirs] using ih.2
      | symlink n sz ok =>
          cases follow with
          | false =>
              constructor
              · simpa [childNode, listSum, entrySum, dsAdd, dsZero] using ih.1
              · simpa [childNode, listSum, entrySum, dsAdd, dsZero, himm,
                  immDirCount, Entry.isDirLike] using ih.2
          | true =>
              cases ok with
              | true =>
                  constructor
                  · simpa [childNode, fileChild, listSum, entrySum, dsAdd,
                      scanAgg_cons_files] using ih.1
                  · simpa [childNode, fileChild, listSum, entrySum, dsAdd,
                      himm, immDirCount, Entry.isDirLike,
                      scanAgg_cons_dirs] using ih.2
              | false =>
                  constructor
                  · simpa [childNode, fileChild, listSum, entrySum, dsAdd,
                      dsZero, scanAgg_cons_files] using ih.1
                  · simpa [childNode, fileChild, listSum, entrySum, dsAdd,
                      dsZero, himm, immDirCount, Entry.isDirLike,
                      scanAgg_cons_dirs] using ih.2
      | dir n subs =>
          have hnn := listSum_counts_nonneg follow subs
          have hchild :
              childNode follow p (Entry.dir n subs) =
                some { name := n, path := p ++ [n],
                       size := (listSum follow subs).size,
                       files := (listSum follow subs).files,
                       dirs := (listSum follow subs).dirs,
                       children := [], err := (listSum follow subs).err,
                       scanned := false } := by
            simp [childNode, dirNode]
          have hguard :
              (if (listSum follow subs).dirs > 0 ∨
                  (listSum follow subs).files > 0
                then (listSum follow subs).files else 0) =
                (listSum follow subs).files ∧
              (if (listSum follow subs).dirs > 0 ∨
                  (listSum follow subs).files > 0
                then (listSum follow subs).dirs else 0) =
                (listSum follow subs).dirs := by
            by_cases h : (listSum follow subs).dirs > 0 ∨
                (listSum follow subs).files > 0
            · simp [h]
            · push_neg at h
              have hf : (listSum follow subs).files = 0 := by omega
              have hd : (listSum follow subs).dirs = 0 := by omega
              simp [h, hf, hd]
          constructor
          · rw [List.filterMap_cons_some hchild, scanAgg_cons_files]
            simp only [listSum, entrySum, dsAdd]
            simp only [hguard.1] at *
            simp only [ih.1]
            ring
          · rw [List.filterMap_cons_some hchild, scanAgg_cons_dirs]
            simp only [listSum, entrySum, dsAdd, himm, Entry.isDirLike]
            simp only [hguard.2] at *
            simp only [ih.2, if_true]
            ring
      | baddir n e' =>
          have hchild :
              childNode follow p (Entry.baddir n e') =
                some { name := n, path := p ++ [n], size := 0, files := 0,
                       dirs := 0, children := [], err := some e',
                       scanned := false } := by
            simp [childNode, dirNode]
          constructor
          · rw [List.filterMap_cons_some hchild, scanAgg_cons_files]
            simp only [listSum, entrySum, dsAdd]
            simp only [ih.1]
            simp
          · rw [List.filterMap_cons_some hchild, scanAgg_cons_dirs]
            simp only [listSum, entrySum, dsAdd, himm, Entry.isDirLike]
            simp only [ih.2]
            simp

/-- **C2.** On the same readable root (scanned fresh, i.e. with an empty
cache), `buildLevel` (`scanDir`) and `summarize` (`sumDir`) agree on the
file count, and `buildLevel`'s directory count is `summarize`'s count
minus the number of immediate child directories of the root: a child
directory's `dirs` value is summed into the parent as-is and the child
directory entry itself is not counted. -/
theorem C2_buildLevel_agrees_with_summarize (follow : Bool) (p : Path)
    (ents : List Entry) :
    (scanDir follow [] p (.ok ents)).files =
        (sumDir follow (.ok ents)).files ∧
      (scanDir follow [] p (.ok ents)).dirs =
        (sumDir follow (.ok ents)).dirs - immDirCount ents := by
  have h := scanAgg_vs_listSum follow p ents
  exact ⟨h.1, h.2⟩

/-! ## Error handling of the subtree walk (claim C5) -/

mutual
/-- Replacing every unreadable directory by an empty readable one keeps
all three counters: a directory read failure aborts neither sibling nor
ancestor traversal, so the counters cover the whole readable portion. -/
theorem entrySum_prune (follow : Bool) (e : Entry) :
    entrySum follow (pruneE e) =
      ⟨(entrySum follow e).size, (entrySum follow e).files,
       (entrySum follow e).dirs, none⟩ := by
  cases e with
  | file n sz ok => cases ok <;> simp [pruneE, entrySum, dsZero]
  | symlink n sz ok =>
      cases follow <;> cases ok <;> simp [pruneE, entrySum, dsZero]
  | dir n ents =>
      simp [pruneE, entrySum, dsAdd, listSum_prune follow ents, oFirst]
  | baddir n e' => simp [pruneE, entrySum, listSum, dsAdd, dsZero, oFirst]

/-- Listing-level version of `entrySum_prune`. -/
theorem listSum_prune (follow : Bool) (es : List Entry) :
    listSum follow (pruneL es) =
      ⟨(listSum follow es).size, (listSum follow es).files,
       (listSum follow es).dirs, none⟩ := by
  cases es with
  | nil => simp [pruneL, listSum, dsZero]
  | cons e es =>
      simp [pruneL, listSum, dsAdd, entrySum_prune follow e,
        listSum_prune follow es, oFirst]
end

mutual
/-- The error recorded for one entry's subtree is the head of the list of
directory read errors in depth-first traversal order: the capacity-one
non-blocking error channel keeps the first error and drops the rest. -/
theorem entrySum_err_first (follow : Bool) (e : Entry) :
    (entrySum follow e).err = (allErrsE follow e).head? := by
  cases e with
  | file n sz ok => cases ok <;> simp [entrySum, allErrsE, dsZero]
  | symlink n sz ok =>
      cases follow <;> cases ok <;> simp [entrySum, allErrsE, dsZero]
  | dir n ents =>
      simp [entrySum, allErrsE, dsAdd, oFirst, listSum_err_first follow ents]
  | baddir n e' => simp [entrySum, allErrsE]

/-- Listing-level version of `entrySum_err_first`. -/
theorem listSum_err_first (follow : Bool) (es : List Entry) :
    (listSum follow es).err = (allErrsL follow es).head? := by
  cases es with
  | nil => simp [listSum, allErrsL, dsZero]
  | cons e es =>
      have h1 := entrySum_err_first follow e
      have h2 := listSum_err_first follow es
      simp only [listSum, allErrsL, dsAdd]
      cases hh : (allErrsE follow e) with
      | nil => simp [hh] at h1; simp [h1, oFirst, h2]
      | cons x xs => simp [hh] at h1; simp [h1, oFirst]
end

/-- **C5 (counterexample to the claim as stated).**  With two unreadable
subdirectories, encountered in traversal order with errors `1` then `2`,
`sumDir` records error `1`: the error recorded is the *first* one sent,
not the last — the capacity-one channel drops later errors. -/
theorem C5_last_error_wins_refuted :
    (sumDir false
        (.ok [.baddir "a" 1, .baddir "b" 2])).err = some 1 ∧
      ¬ ((sumDir false
        (.ok [.baddir "a" 1, .baddir "b" 2])).err = some 2) := by
  decide

/-- **C5 (amended).**  When several directory reads fail during a
`summarize` walk, a read failure is recorded in the returned result with
the *first* error (in traversal order) winning, traversal of sibling and
ancestor directories is not aborted, and the size/files/dirs totals of the
readable portion are still returned: the result equals the totals of the
tree with every unreadable directory read as empty, carrying the head of
the depth-first list of read errors. -/
theorem C5_first_error_wins_keeps_totals (follow : Bool)
    (ents : List Entry) :
    sumDir follow (.ok ents) =
      ⟨(sumDir follow (.ok (pruneL ents))).size,
       (sumDir follow (.ok (pruneL ents))).files,
       (sumDir follow (.ok (pruneL ents))).dirs,
       (allErrsL follow ents).head?⟩ := by
  simp only [sumDir, listSum_prune]
  rw [← listSum_err_first]

/-! ## Invisibility of failed metadata reads (claim C10) -/

mutual
/-- Dropping the regular files whose metadata read fails does not change
one entry's contribution to `sumDir`'s counters or error. -/
theorem entrySum_drop (follow : Bool) (e : Entry) :
    (match dropBadInfoE e with
      | some e' => entrySum follow e'
      | none => dsZero) = entrySum follow e := by
  cases e with
  | file n sz ok => cases ok <;> simp [dropBadInfoE, entrySum, dsZero]
  | symlink n sz ok => simp [dropBadInfoE]
  | dir n ents =>
      simp [dropBadInfoE, entrySum, listSum_drop follow ents]
  | baddir n e' => simp [dropBadInfoE]

/-- Listing-level version of `entrySum_drop`. -/
theorem listSum_drop (follow : Bool) (es : List Entry) :
    listSum follow (dropBadInfoL es) = listSum follow es := by
  cases es with
  | nil => simp [dropBadInfoL]
  | cons e es =>
      have h1 := entrySum_drop follow e
      cases hh : dropBadInfoE e with
      | some e' =>
          simp only [hh] at h1
          simp [dropBadInfoL, hh, listSum, h1, listSum_drop follow es]
      | none =>
          simp only [hh] at h1
          simp [dropBadInfoL, hh, listSum, listSum_drop follow es, ← h1,
            dsAdd_zero_left]
end

/-- A file child with a failed metadata read is the zero node for
`scanDir`'s aggregation step. -/
theorem scanStep_badFile (a : scanAcc) (p : Path) (n : String) (sz : Int) :
    scanStep a (fileChild p n sz false) = a := by
  cases a with
  | mk s f d e => simp [scanStep, fileChild]

/-- A file child with a failed metadata read is the zero node for the
session's aggregation step. -/
theorem sessStep_badFile (a : scanAcc) (p : Path) (n : String) (sz : Int) :
    sessStep a (fileChild p n sz false) = a := by
  cases a with
  | mk s f d e => simp [sessStep, fileChild]

/-- Dropping metadata-failing files leaves the aggregation of the built
children unchanged, for any step function that treats their zero child
node as the identity and agrees on the other children. -/
theorem foldl_children_drop (follow : Bool) (p : Path)
    (step : scanAcc → Node → scanAcc)
    (hstep : ∀ a n sz, step a (fileChild p n sz false) = a)
    (ents : List Entry) :
    ∀ a : scanAcc,
      ((dropBadInfoL ents).filterMap (childNode follow p)).foldl step a =
        (ents.filterMap (childNode follow p)).foldl step a := by
  induction ents with
  | nil => intro a; simp [dropBadInfoL]
  | cons e es ih =>
      intro a
      cases e with
      | file n sz ok =>
          cases ok with
          | true => simp [dropBadInfoL, dropBadInfoE, childNode, ih]
          | false =>
              simp [dropBadInfoL, dropBadInfoE, childNode, ih, hstep]
      | symlink n sz ok =>
          cases follow <;> simp [dropBadInfoL, dropBadInfoE, childNode, ih]
      | dir n subs =>
          have hchild : childNode follow p (Entry.dir n subs) =
              some { name := n, path := p ++ [n],
                     size := (listSum follow subs).size,
                     files := (listSum follow subs).files,
                     dirs := (listSum follow subs).dirs,
                     children := [], err := (listSum follow subs).err,
                     scanned := false } := by
            simp [childNode, dirNode]
          have hchild2 :
              childNode follow p (Entry.dir n (dropBadInfoL subs)) =
                some { name := n, path := p ++ [n],
                       size := (listSum follow subs).size,
                       files := (listSum follow subs).files,
                       dirs := (listSum follow subs).dirs,
                       children := [], err := (listSum follow subs).err,
                       scanned := false } := by
            simp [childNode, dirNode, listSum_drop]
          simp only [dropBadInfoL, dropBadInfoE]
          rw [List.filterMap_cons_some hchild2,
            List.filterMap_cons_some hchild]
          simp only [List.foldl_cons]
          exact ih _
      | baddir n e' =>
          have hchild : childNode follow p (Entry.baddir n e') =
              some { name := n, path := p ++ [n], size := 0, files := 0,
                     dirs := 0, children := [], err := some e',
                     scanned := false } := by
            simp [childNode, dirNode]
          simp only [dropBadInfoL, dropBadInfoE]
          rw [List.filterMap_cons_some hchild,
            List.filterMap_cons_some hchild]
          simp only [List.foldl_cons]
          exact ih _

/-- **C10.**  A non-directory, non-symlink entry whose metadata read
(`Info`) fails contributes nothing to the size and files totals and
records no error anywhere: `summarize` (`sumDir`), `buildLevel`
(`scanDir`, per aggregate field) and the incremental session's final node
all compute exactly what they compute on the tree with those entries
removed, so only directory-listing failures are ever reported. -/
theorem C10_info_failures_silently_ignored (follow : Bool) (p : Path)
    (ents : List Entry) :
    sumDir follow (.ok (dropBadInfoL ents)) = sumDir follow (.ok ents) ∧
    ((scanDir follow [] p (.ok (dropBadInfoL ents))).size =
        (scanDir follow [] p (.ok ents)).size ∧
      (scanDir follow [] p (.ok (dropBadInfoL ents))).files =
        (scanDir follow [] p (.ok ents)).files ∧
      (scanDir follow [] p (.ok (dropBadInfoL ents))).dirs =
        (scanDir follow [] p (.ok ents)).dirs ∧
      (scanDir follow [] p (.ok (dropBadInfoL ents))).err =
        (scanDir follow [] p (.ok ents)).err) ∧
    ((sessionNode follow p (dropBadInfoL ents)).size =
        (sessionNode follow p ents).size ∧
      (sessionNode follow p (dropBadInfoL ents)).files =
        (sessionNode follow p ents).files ∧
      (sessionNode follow p (dropBadInfoL ents)).dirs =
        (sessionNode follow p ents).dirs ∧
      (sessionNode follow p (dropBadInfoL ents)).err =
        (sessionNode follow p ents).err) := by
  have hscan := foldl_children_drop follow p scanStep
    (fun a n sz => scanStep_badFile a p n sz) ents ⟨0, 0, 0, none⟩
  have hsess := foldl_children_drop follow p sessStep
    (fun a n sz => sessStep_badFile a p n sz) ents ⟨0, 0, 0, none⟩
  refine ⟨by simp [sumDir, listSum_drop], ?_, ?_⟩
  · simp [scanDir, cacheLookup, scanAgg, hscan]
  · simp [sessionNode, sessAgg, hsess]

/-! ## Unreadable roots (claim C6) and the cache fast path (claim C7) -/

theorem cacheLookup_store (c : Cache) (p : Path) (n : Node) :
    cacheLookup (cacheStore c p n) p = some n := by
  simp [cacheLookup, cacheStore, List.find?]

/-- **C6 (counterexample to the claim as stated).**  On a root whose own
listing fails, `scanDir` returns the node with its error set — but with
`scanned = false`: the early-return branch of `scanDir` never sets
`Scanned`, while the claim asserts `scanned = true` for both `buildLevel`
and the scan session. -/
theorem C6_scanDir_error_root_not_scanned :
    (scanDir false [] ["r"] (.error 7)).err = some 7 ∧
      (scanDir false [] ["r"] (.error 7)).scanned = false := by
  constructor <;> rfl

/-- **C6 (amended).**  For every root path whose own directory listing
fails (fresh scan, empty cache), both `scanDir` and a scan session
produce a node with the error set and no children; the scan session's
node has `scanned = true`, whereas `scanDir`'s early-return branch leaves
`scanned = false`. -/
theorem C6_error_root_node_shape (follow : Bool) (p : Path) (e : Nat)
    (c : Cache) (tok : Nat) :
    scanDir follow [] p (.error e) =
        { name := baseName p, path := p, size := 0, files := 0, dirs := 0,
          children := [], err := some e, scanned := false } ∧
      scanSession follow false c p (.error e) tok =
        ([.scanDone { name := baseName p, path := p, size := 0, files := 0,
                      dirs := 0, children := [], err := some e,
                      scanned := true } tok], c, 0) := by
  constructor <;> rfl

/-- **C7.**  Scanning the same unchanged listing twice, the second time
with the fast-cache flag enabled over the cache the first session wrote,
makes the second session short-circuit: it emits only a `ScanDone` whose
node is exactly the first session's final node (hence equal size, files
and dirs), leaves the cache as it was after the first run, and spawns no
`sumDir` worker. -/
theorem C7_second_scan_fast_path (follow : Bool) (c : Cache) (p : Path)
    (ents : List Entry) (tok1 tok2 : Nat) :
    (scanSession follow false c p (.ok ents) tok1).1.getLast? =
        some (.scanDone (sessionNode follow p ents) tok1) ∧
      scanSession follow true
          (scanSession follow false c p (.ok ents) tok1).2.1 p
          (.ok ents) tok2 =
        ([.scanDone (sessionNode follow p ents) tok2],
         (scanSession follow false c p (.ok ents) tok1).2.1, 0) := by
  constructor
  · simp [scanSession, sessionRun, List.getLast?_concat]
  · have h1 : (scanSession follow false c p (.ok ents) tok1).2.1 =
        cacheStore c p (sessionNode follow p ents) := by
      simp [scanSession, sessionRun]
    rw [h1]
    simp [scanSession, cacheLookup_store, sessionNode]

/-! ## Token filtering in the consumer (claim C4) -/

/-- **C4.**  An event whose token differs from the model's active scan
token never mutates the displayed node: a stale `childUpdateMsg` leaves
the whole model unchanged, and a stale `scanDoneMsg` changes nothing but
the path cache, into which its node is still stored. -/
theorem C4_stale_token_leaves_display_unchanged (m : MState) (child : Node)
    (node : Node) (tok : Nat) (elapsedOk : Bool) (ongoing : Int)
    (scanInProgress : Bool) (h : tok ≠ m.scanToken) :
    applyChildUpdate m child tok = m ∧
      applyScanDone m node tok elapsedOk ongoing scanInProgress =
        { m with cache := cacheStore m.cache node.path node } ∧
      (applyScanDone m node tok elapsedOk ongoing scanInProgress).current =
        m.current := by
  refine ⟨?_, ?_, ?_⟩
  · simp [applyChildUpdate, h]
  · simp [applyScanDone, h]
  · simp [applyScanDone, h]

/-- Witness for C4 at a concrete model state and mismatched token. -/
theorem C4_stale_token_witness :
    applyChildUpdate
        ⟨5, ["r"], none, [], false, false, true⟩
        (placeholderChild ["r"] "d") 7 =
      ⟨5, ["r"], none, [], false, false, true⟩ ∧
      applyScanDone ⟨5, ["r"], none, [], false, false, true⟩
          (freshCurrent ["q"]) 7 true 1 false =
        { (⟨5, ["r"], none, [], false, false, true⟩ : MState) with
          cache := cacheStore [] (freshCurrent ["q"]).path
            (freshCurrent ["q"]) } ∧
      (applyScanDone ⟨5, ["r"], none, [], false, false, true⟩
          (freshCurrent ["q"]) 7 true 1 false).current = none :=
  C4_stale_token_leaves_display_unchanged
    ⟨5, ["r"], none, [], false, false, true⟩
    (placeholderChild ["r"] "d") (freshCurrent ["q"]) 7 true 1 false
    (by decide)

/-! ## The undo stack on a failed restore (claim C9) -/

/-- **C9 (counterexample to the claim as stated).**  With one trashed item
whose holding-area entry is gone (so `restoreFromTrash` fails), the undo
handler reports the failure but the item is *not* left off the stack: the
handler only peeks, and pops exclusively after a successful restore, so
the history still holds the item. -/
theorem C9_failed_restore_keeps_item :
    (undoStep [] "s" [⟨"f", ["t", "f"], ["home", "f"], 0, false⟩] 30 0).2.2 =
        UndoStatus.restoreFailed ∧
      ¬ ((undoStep [] "s"
            [⟨"f", ["t", "f"], ["home", "f"], 0, false⟩] 30 0).2.1 = []) := by
  constructor
  · rfl
  · intro h
    simp [undoStep, restoreFromTrash, fsLookup] at h

/-- **C9 (amended).**  Whenever an undo attempt's `restoreFromTrash`
fails (on an unexpired most-recent item), the failed item *remains on*
the undo stack — the handler peeks and pops only after success — the
filesystem is unchanged, and the error is surfaced as the
restore-failed status. -/
theorem C9_failed_restore_stack_unchanged (fs : FS) (sfx : String)
    (hist : List TrashItem) (window now : Int) (ti : TrashItem)
    (hlast : hist.getLast? = some ti)
    (hlive : ¬ (window > 0 ∧ now - ti.deletedAt > window))
    (hfail : restoreFromTrash fs sfx ti = .error ()) :
    undoStep fs sfx hist window now = (fs, hist, .restoreFailed) := by
  simp [undoStep, hlast, hlive, hfail]

/-- Witness for C9's amended statement on a concrete failing restore. -/
theorem C9_failed_restore_stack_unchanged_witness :
    undoStep [] "s" [⟨"f", ["t", "f"], ["home", "f"], 0, false⟩] 30 0 =
      ([], [⟨"f", ["t", "f"], ["home", "f"], 0, false⟩],
        .restoreFailed) :=
  C9_failed_restore_stack_unchanged [] "s"
    [⟨"f", ["t", "f"], ["home", "f"], 0, false⟩] 30 0
    ⟨"f", ["t", "f"], ["home", "f"], 0, false⟩ (by rfl) (by decide)
    (by rfl)

/-! ## The trash store (claim C8) -/

theorem fsLookup_cons (kv : Path × FsObj) (fs : FS) (q : Path) :
    fsLookup (kv :: fs) q =
      if kv.1 = q then some kv.2 else fsLookup fs q := by
  by_cases h : kv.1 = q <;> simp [fsLookup, List.find?, h]

theorem fsErase_cons (kv : Path × FsObj) (fs : FS) (p : Path) :
    fsErase (kv :: fs) p =
      if kv.1 = p then fsErase fs p else kv :: fsErase fs p := by
  by_cases h : kv.1 = p <;> simp [fsErase, List.filter_cons, h]

theorem fsLookup_erase (fs : FS) (p q : Path) :
    fsLookup (fsErase fs p) q = if q = p then none else fsLookup fs q := by
  induction fs with
  | nil => by_cases h : q = p <;> simp [fsLookup, fsErase, h]
  | cons kv fs ih =>
      rw [fsErase_cons]
      by_cases hkp : kv.1 = p
      · rw [if_pos hkp, ih, fsLookup_cons]
        by_cases hqp : q = p
        · simp [hqp]
        · have hkq : ¬ kv.1 = q := fun hh => hqp (hh ▸ hkp)
          simp [hqp, hkq]
      · rw [if_neg hkp, fsLookup_cons, fsLookup_cons]
        by_cases hkq : kv.1 = q
        · have hqp : ¬ q = p := fun hh => hkp (hkq.symm ▸ hh)
          simp [hkq, hqp]
        · rw [if_neg hkq, if_neg hkq, ih]

theorem fsLookup_store (fs : FS) (p q : Path) (o : FsObj) :
    fsLookup (fsStore fs p o) q = if q = p then some o else fsLookup fs q := by
  by_cases h : q = p
  · simp [fsLookup, fsStore, List.find?, h]
  · have hpq : ¬ p = q := fun hh => h hh.symm
    simp only [fsStore]
    have : fsLookup ((p, o) :: fsErase fs p) q =
        fsLookup (fsErase fs p) q := by
      simp [fsLookup, List.find?, hpq]
    rw [this, fsLookup_erase]
    simp [h]

/-- Restoring an item whose original path is free in the current store:
the held object lands back at exactly the original path and the sidecar
metadata is removed. -/
theorem restore_to_free_path (fsm : FS) (obj : FsObj) (ti : TrashItem)
    (sfx2 : String) (hsrc : fsLookup fsm ti.origPath = none)
    (hheld : fsLookup fsm ti.trashPath = some obj)
    (hne : ti.origPath ≠ metaPath ti.trashPath) :
    ∃ fs2, restoreFromTrash fsm sfx2 ti = .ok fs2 ∧
      fsLookup fs2 ti.origPath = some obj ∧
      fsLookup fs2 (metaPath ti.trashPath) = none := by
  refine ⟨fsErase (fsStore (fsErase fsm ti.trashPath) ti.origPath obj)
    (metaPath ti.trashPath), ?_, ?_, ?_⟩
  · simp [restoreFromTrash, hsrc, hheld]
  · rw [fsLookup_erase, fsLookup_store]
    simp [hne]
  · rw [fsLookup_erase]
    simp

/-- Restoring an item whose original path is occupied: the held object
lands at the uniquely suffixed sibling path and the sidecar metadata is
removed. -/
theorem restore_to_occupied_path (fsm : FS) (obj : FsObj) (ti : TrashItem)
    (sfx2 : String) (hsrc : (fsLookup fsm ti.origPath).isSome = true)
    (hheld : fsLookup fsm ti.trashPath = some obj)
    (hne : ti.origPath.dropLast ++ [ti.origPath.getLast?.getD "" ++ sfx2] ≠
      metaPath ti.trashPath) :
    ∃ fs3, restoreFromTrash fsm sfx2 ti = .ok fs3 ∧
      fsLookup fs3
          (ti.origPath.dropLast ++ [ti.origPath.getLast?.getD "" ++ sfx2]) =
        some obj ∧
      fsLookup fs3 (metaPath ti.trashPath) = none := by
  refine ⟨fsErase (fsStore (fsErase fsm ti.trashPath)
      (ti.origPath.dropLast ++ [ti.origPath.getLast?.getD "" ++ sfx2]) obj)
    (metaPath ti.trashPath), ?_, ?_, ?_⟩
  · simp [restoreFromTrash, hsrc, hheld]
  · rw [fsLookup_erase, fsLookup_store]
    simp [hne]
  · rw [fsLookup_erase]
    simp

set_option maxRecDepth 4000

/-- **C8.**  `restoreFromTrash (moveToTrash p)` recreates an entry with
the identical object at `p` and leaves no sidecar `.meta.json` behind in
the holding area; if `p` is occupied at restore time (modelled by a
blocker stored at `p` between the two calls), the object lands at the
uniquely suffixed sibling path instead.  Holds for both the rename path
and the copy-then-delete fallback.  Hypotheses: the source exists, its
base name is free in the holding area, and the holding path, its sidecar
path and the suffixed restore path do not collide with the source. -/
theorem C8_trash_round_trip (fs : FS) (renameOk : Bool)
    (sfx1 sfx2 : String) (trashDir : Path) (now : Int) (src : Path)
    (obj : FsObj)
    (h1 : fsLookup fs src = some obj)
    (h2 : fsLookup fs (trashDir ++ [baseName src]) = none)
    (h3 : src ≠ trashDir ++ [baseName src])
    (h4 : src ≠ metaPath (trashDir ++ [baseName src]))
    (h5 : ¬ trashDir ++ [baseName src] =
      metaPath (trashDir ++ [baseName src]))
    (h6 : src.dropLast ++ [src.getLast?.getD "" ++ sfx2] ≠
      metaPath (trashDir ++ [baseName src])) :
    ∃ fsm ti,
      moveToTrash fs renameOk sfx1 trashDir now src = .ok (fsm, ti) ∧
      ti.origPath = src ∧
      ti.trashPath = trashDir ++ [baseName src] ∧
      (∃ fs2, restoreFromTrash fsm sfx2 ti = .ok fs2 ∧
        fsLookup fs2 src = some obj ∧
        fsLookup fs2 (metaPath (trashDir ++ [baseName src])) = none) ∧
      (∀ blocker, ∃ fs3,
        restoreFromTrash (fsStore fsm src blocker) sfx2 ti = .ok fs3 ∧
        fsLookup fs3 (src.dropLast ++ [src.getLast?.getD "" ++ sfx2]) =
          some obj ∧
        fsLookup fs3 (metaPath (trashDir ++ [baseName src])) = none) := by
  have h3s : ¬ trashDir ++ [baseName src] = src := fun hh => h3 hh.symm
  cases renameOk with
  | true =>
      refine ⟨fsStore (fsStore (fsErase fs src)
          (trashDir ++ [baseName src]) obj)
          (metaPath (trashDir ++ [baseName src])) (.file []),
        ⟨baseName src, trashDir ++ [baseName src], src, now, false⟩,
        ?_, rfl, rfl, ?_, ?_⟩
      · simp only [moveToTrash, h1, h2]
        simp
      · have hsrcm : fsLookup (fsStore (fsStore (fsErase fs src)
            (trashDir ++ [baseName src]) obj)
            (metaPath (trashDir ++ [baseName src])) (.file [])) src =
            none := by
          rw [fsLookup_store, if_neg h4, fsLookup_store, if_neg h3,
            fsLookup_erase, if_pos rfl]
        have hheldm : fsLookup (fsStore (fsStore (fsErase fs src)
            (trashDir ++ [baseName src]) obj)
            (metaPath (trashDir ++ [baseName src])) (.file []))
            (trashDir ++ [baseName src]) = some obj := by
          rw [fsLookup_store, if_neg h5, fsLookup_store, if_pos rfl]
        exact restore_to_free_path _ obj _ sfx2 hsrcm hheldm h4
      · intro blocker
        have hsrcb : (fsLookup (fsStore (fsStore (fsStore (fsErase fs src)
            (trashDir ++ [baseName src]) obj)
            (metaPath (trashDir ++ [baseName src])) (.file []))
            src blocker) src).isSome = true := by
          rw [fsLookup_store, if_pos rfl]
          rfl
        have hheldb : fsLookup (fsStore (fsStore (fsStore (fsErase fs src)
            (trashDir ++ [baseName src]) obj)
            (metaPath (trashDir ++ [baseName src])) (.file []))
            src blocker) (trashDir ++ [baseName src]) = some obj := by
          rw [fsLookup_store, if_neg h3s, fsLookup_store, if_neg h5,
            fsLookup_store, if_pos rfl]
        exact restore_to_occupied_path _ obj _ sfx2 hsrcb hheldb h6
  | false =>
      refine ⟨fsStore (fsErase (fsStore fs (trashDir ++ [baseName src]) obj)
          src) (metaPath (trashDir ++ [baseName src])) (.file []),
        ⟨baseName src, trashDir ++ [baseName src], src, now,
          match obj with | .dir _ => true | _ => false⟩,
        ?_, rfl, rfl, ?_, ?_⟩
      · simp only [moveToTrash, h1, h2]
        simp
        cases obj <;> rfl
      · have hsrcm : fsLookup (fsStore (fsErase
            (fsStore fs (trashDir ++ [baseName src]) obj) src)
            (metaPath (trashDir ++ [baseName src])) (.file [])) src =
            none := by
          rw [fsLookup_store, if_neg h4, fsLookup_erase, if_pos rfl]
        have hheldm : fsLookup (fsStore (fsErase
            (fsStore fs (trashDir ++ [baseName src]) obj) src)
            (metaPath (trashDir ++ [baseName src])) (.file []))
            (trashDir ++ [baseName src]) = some obj := by
          rw [fsLookup_store, if_neg h5, fsLookup_erase, if_neg h3s,
            fsLookup_store, if_pos rfl]
        exact restore_to_free_path _ obj _ sfx2 hsrcm hheldm h4
      · intro blocker
        have hsrcb : (fsLookup (fsStore (fsStore (fsErase
            (fsStore fs (trashDir ++ [baseName src]) obj) src)
            (metaPath (trashDir ++ [baseName src])) (.file []))
            src blocker) src).isSome = true := by
          rw [fsLookup_store, if_pos rfl]
          rfl
        have hheldb : fsLookup (fsStore (fsStore (fsErase
            (fsStore fs (trashDir ++ [baseName src]) obj) src)
            (metaPath (trashDir ++ [baseName src])) (.file []))
            src blocker) (trashDir ++ [baseName src]) = some obj := by
          rw [fsLookup_store, if_neg h3s, fsLookup_store, if_neg h5,
            fsLookup_erase, if_neg h3s, fsLookup_store, if_pos rfl]
        exact restore_to_occupied_path _ obj _ sfx2 hsrcb hheldb h6

/-- Witness for C8 on a concrete one-file store, rename path. -/
theorem C8_trash_round_trip_witness :
    ∃ fsm ti,
      moveToTrash [(["home", "f.txt"], FsObj.file [1, 2, 3])] true "-a1"
          ["trash"] 5 ["home", "f.txt"] = .ok (fsm, ti) ∧
      ti.origPath = ["home", "f.txt"] ∧
      ti.trashPath = ["trash"] ++ [baseName ["home", "f.txt"]] ∧
      (∃ fs2, restoreFromTrash fsm "-b2" ti = .ok fs2 ∧
        fsLookup fs2 ["home", "f.txt"] = some (FsObj.file [1, 2, 3]) ∧
        fsLookup fs2
          (metaPath (["trash"] ++ [baseName ["home", "f.txt"]])) = none) ∧
      (∀ blocker, ∃ fs3,
        restoreFromTrash (fsStore fsm ["home", "f.txt"] blocker) "-b2" ti =
          .ok fs3 ∧
        fsLookup fs3 (["home", "f.txt"].dropLast ++
          [["home", "f.txt"].getLast?.getD "" ++ "-b2"]) =
            some (FsObj.file [1, 2, 3]) ∧
        fsLookup fs3
          (metaPath (["trash"] ++ [baseName ["home", "f.txt"]])) = none) :=
  C8_trash_round_trip [(["home", "f.txt"], FsObj.file [1, 2, 3])] true
    "-a1" "-b2" ["trash"] 5 ["home", "f.txt"] (FsObj.file [1, 2, 3])
    (by rfl) (by rfl) (by decide) (by decide) (by decide) (by decide)

/-! ## The incremental event protocol (claim C3) -/

theorem pathAppend_inj (p : Path) (a b : String) :
    (p ++ [a] = p ++ [b]) ↔ a = b := by
  constructor
  · intro h
    have := List.append_cancel_left h
    simpa using this
  · intro h; rw [h]

theorem updFor_inlineEvt (follow : Bool) (p : Path) (tok : Nat) :
    ∀ e ev, inlineEvt follow p tok e = some ev →
      ∀ q, updFor q ev = decide (p ++ [e.name] = q) := by
  intro e ev h q
  cases e with
  | file n sz ok =>
      simp [inlineEvt] at h
      simp [← h, updFor, fileChild, Entry.name]
  | symlink n sz ok =>
      cases follow with
      | false => simp [inlineEvt] at h
      | true =>
          simp [inlineEvt] at h
          simp [← h, updFor, fileChild, Entry.name]
  | dir n subs =>
      simp [inlineEvt] at h
      simp [← h, updFor, placeholderChild, Entry.name]
  | baddir n e' =>
      simp [inlineEvt] at h
      simp [← h, updFor, placeholderChild, Entry.name]

theorem updFor_finalEvt (follow : Bool) (p : Path) (tok : Nat) :
    ∀ e ev, finalEvt follow p tok e = some ev →
      ∀ q, updFor q ev = decide (p ++ [e.name] = q) := by
  intro e ev h q
  cases e with
  | file n sz ok => simp [finalEvt, dirNode] at h
  | symlink n sz ok => simp [finalEvt, dirNode] at h
  | dir n subs =>
      simp [finalEvt, dirNode] at h
      simp [← h, updFor, Entry.name]
  | baddir n e' =>
      simp [finalEvt, dirNode] at h
      simp [← h, updFor, Entry.name]

theorem isDone_inlineEvt (follow : Bool) (p : Path) (tok : Nat) :
    ∀ e ev, inlineEvt follow p tok e = some ev → isDoneEvt ev = false := by
  intro e ev h
  cases e with
  | file n sz ok =>
      simp [inlineEvt] at h; simp [← h, isDoneEvt]
  | symlink n sz ok =>
      cases follow with
      | false => simp [inlineEvt] at h
      | true => simp [inlineEvt] at h; simp [← h, isDoneEvt]
  | dir n subs => simp [inlineEvt] at h; simp [← h, isDoneEvt]
  | baddir n e' => simp [inlineEvt] at h; simp [← h, isDoneEvt]

theorem isDone_finalEvt (follow : Bool) (p : Path) (tok : Nat) :
    ∀ e ev, finalEvt follow p tok e = some ev → isDoneEvt ev = false := by
  intro e ev h
  cases e with
  | file n sz ok => simp [finalEvt, dirNode] at h
  | symlink n sz ok => simp [finalEvt, dirNode] at h
  | dir n subs => simp [finalEvt, dirNode] at h; simp [← h, isDoneEvt]
  | baddir n e' => simp [finalEvt, dirNode] at h; simp [← h, isDoneEvt]

/-- Events produced for entries with other names never pass the filter
for name `nm`. -/
theorem filter_filterMap_not_mem (p : Path) (f : Entry → Option Event)
    (hpath : ∀ e ev, f e = some ev →
      ∀ q, updFor q ev = decide (p ++ [e.name] = q))
    (ents : List Entry) (nm : String)
    (h : nm ∉ ents.map Entry.name) :
    (ents.filterMap f).filter (updFor (p ++ [nm])) = [] := by
  induction ents with
  | nil => simp
  | cons a as ih =>
      simp only [List.map_cons, List.mem_cons, not_or] at h
      cases hfa : f a with
      | none =>
          rw [List.filterMap_cons_none hfa]
          exact ih h.2
      | some ev =>
          rw [List.filterMap_cons_some hfa]
          have hup : updFor (p ++ [nm]) ev = false := by
            rw [hpath a ev hfa]
            simpa [pathAppend_inj] using fun hh => h.1 hh.symm
          simp [List.filter_cons, hup, ih h.2]

/-- With distinct entry names, the events that pass the filter for one
entry's name are exactly the events produced for that entry. -/
theorem filter_filterMap_mem (p : Path) (f : Entry → Option Event)
    (hpath : ∀ e ev, f e = some ev →
      ∀ q, updFor q ev = decide (p ++ [e.name] = q))
    (ents : List Entry) (e : Entry) (hmem : e ∈ ents)
    (hnodup : (ents.map Entry.name).Nodup) :
    (ents.filterMap f).filter (updFor (p ++ [e.name])) = (f e).toList := by
  induction ents with
  | nil => cases hmem
  | cons a as ih =>
      simp only [List.map_cons, List.nodup_cons] at hnodup
      rcases List.mem_cons.mp hmem with he | he
      · subst he
        cases hfa : f e with
        | none =>
            rw [List.filterMap_cons_none hfa]
            rw [filter_filterMap_not_mem p f hpath as e.name hnodup.1]
            simp [hfa]
        | some ev =>
            rw [List.filterMap_cons_some hfa]
            have hup : updFor (p ++ [e.name]) ev = true := by
              rw [hpath e ev hfa]
              simp
            simp [List.filter_cons, hup,
              filter_filterMap_not_mem p f hpath as e.name hnodup.1, hfa]
      · have hne : ¬ a.name = e.name := by
          intro hh
          exact hnodup.1 (hh ▸ (List.mem_map_of_mem Entry.name he))
        cases hfa : f a with
        | none =>
            rw [List.filterMap_cons_none hfa]
            exact ih he hnodup.2
        | some ev =>
            rw [List.filterMap_cons_some hfa]
            have hup : updFor (p ++ [e.name]) ev = false := by
              rw [hpath a ev hfa]
              simpa [pathAppend_inj] using hne
            simp [List.filter_cons, hup, ih he hnodup.2]

/-- No per-entry event is a `scanDoneMsg`. -/
theorem filter_isDone_filterMap (f : Entry → Option Event)
    (hdone : ∀ e ev, f e = some ev → isDoneEvt ev = false)
    (ents : List Entry) :
    (ents.filterMap f).filter isDoneEvt = [] := by
  induction ents with
  | nil => simp
  | cons a as ih =>
      cases hfa : f a with
      | none => rw [List.filterMap_cons_none hfa]; exact ih
      | some ev =>
          rw [List.filterMap_cons_some hfa]
          simp [List.filter_cons, hdone a ev hfa, ih]

/-- **C3.**  Within one scan session on a readable listing with distinct
entry names (as a real directory has) whose files have readable metadata:
every file entry produces exactly one `ChildUpdate` carrying its final
size with `files = 1` and `dirs = 0`; every directory entry (readable or
not) produces exactly two `ChildUpdate`s, the first carrying the `-1`
in-progress sentinel and the second its `sumDir` worker's final subtree
totals; and exactly one `ScanDone` is emitted, as the last event of the
session. -/
theorem C3_session_event_protocol (follow : Bool) (c : Cache) (p : Path)
    (ents : List Entry) (tok : Nat)
    (hnodup : (ents.map Entry.name).Nodup)
    (hok : topFilesOk ents = true) :
    (∀ nm sz ok, Entry.file nm sz ok ∈ ents →
      (scanSession follow false c p (.ok ents) tok).1.filter
          (updFor (p ++ [nm])) =
        [.childUpdate p (fileChild p nm sz ok) tok] ∧
      (fileChild p nm sz ok).size = sz ∧
      (fileChild p nm sz ok).files = 1 ∧ (fileChild p nm sz ok).dirs = 0) ∧
    (∀ nm subs, Entry.dir nm subs ∈ ents →
      (scanSession follow false c p (.ok ents) tok).1.filter
          (updFor (p ++ [nm])) =
        [.childUpdate p (placeholderChild p nm) tok,
         .childUpdate p
           { name := nm, path := p ++ [nm],
             size := (sumDir follow (.ok subs)).size,
             files := (sumDir follow (.ok subs)).files,
             dirs := (sumDir follow (.ok subs)).dirs,
             children := [], err := (sumDir follow (.ok subs)).err,
             scanned := false } tok] ∧
      (placeholderChild p nm).size = -1) ∧
    (∀ nm eid, Entry.baddir nm eid ∈ ents →
      (scanSession follow false c p (.ok ents) tok).1.filter
          (updFor (p ++ [nm])) =
        [.childUpdate p (placeholderChild p nm) tok,
         .childUpdate p
           { name := nm, path := p ++ [nm],
             size := (sumDir follow (.error eid)).size,
             files := (sumDir follow (.error eid)).files,
             dirs := (sumDir follow (.error eid)).dirs,
             children := [], err := some eid, scanned := false } tok] ∧
      (placeholderChild p nm).size = -1) ∧
    ((scanSession follow false c p (.ok ents) tok).1.filter isDoneEvt =
        [.scanDone (sessionNode follow p ents) tok] ∧
      (scanSession follow false c p (.ok ents) tok).1.getLast? =
        some (.scanDone (sessionNode follow p ents) tok)) := by
  have hevs : (scanSession follow false c p (.ok ents) tok).1 =
      ents.filterMap (inlineEvt follow p tok) ++
        ents.filterMap (finalEvt follow p tok) ++
        [.scanDone (sessionNode follow p ents) tok] := rfl
  refine ⟨?_, ?_, ?_, ?_, ?_⟩
  · intro nm sz ok hmem
    have hokf : ok = true := by
      have := List.all_eq_true.mp hok _ hmem
      simpa using this
    subst hokf
    have hA := filter_filterMap_mem p _ (updFor_inlineEvt follow p tok)
      ents _ hmem hnodup
    have hB := filter_filterMap_mem p _ (updFor_finalEvt follow p tok)
      ents _ hmem hnodup
    simp only [Entry.name] at hA hB
    rw [hevs, List.filter_append, List.filter_append, hA, hB]
    refine ⟨?_, rfl, rfl, rfl⟩
    simp [inlineEvt, finalEvt, dirNode, List.filter_cons, updFor]
  · intro nm subs hmem
    have hA := filter_filterMap_mem p _ (updFor_inlineEvt follow p tok)
      ents _ hmem hnodup
    have hB := filter_filterMap_mem p _ (updFor_finalEvt follow p tok)
      ents _ hmem hnodup
    simp only [Entry.name] at hA hB
    rw [hevs, List.filter_append, List.filter_append, hA, hB]
    refine ⟨?_, rfl⟩
    simp [inlineEvt, finalEvt, dirNode, sumDir, List.filter_cons, updFor]
  · intro nm eid hmem
    have hA := filter_filterMap_mem p _ (updFor_inlineEvt follow p tok)
      ents _ hmem hnodup
    have hB := filter_filterMap_mem p _ (updFor_finalEvt follow p tok)
      ents _ hmem hnodup
    simp only [Entry.name] at hA hB
    rw [hevs, List.filter_append, List.filter_append, hA, hB]
    refine ⟨?_, rfl⟩
    simp [inlineEvt, finalEvt, dirNode, sumDir, List.filter_cons, updFor]
  · rw [hevs, List.filter_append, List.filter_append,
      filter_isDone_filterMap _ (isDone_inlineEvt follow p tok),
      filter_isDone_filterMap _ (isDone_finalEvt follow p tok)]
    simp [List.filter_cons, isDoneEvt]
  · rw [hevs]
    exact List.getLast?_concat _

/-- Witness for C3 on a three-entry listing: a file, a readable
subdirectory and an unreadable one. -/
theorem C3_session_event_protocol_witness :
    ((scanSession false false [] ["r"]
        (.ok [.file "f" 5 true, .dir "d" [.file "g" 3 true],
          .baddir "x" 9]) 0).1.filter (updFor (["r"] ++ ["f"])) =
      [.childUpdate ["r"] (fileChild ["r"] "f" 5 true) 0]) ∧
    ((scanSession false false [] ["r"]
        (.ok [.file "f" 5 true, .dir "d" [.file "g" 3 true],
          .baddir "x" 9]) 0).1.filter (updFor (["r"] ++ ["d"])) =
      [.childUpdate ["r"] (placeholderChild ["r"] "d") 0,
       .childUpdate ["r"]
         { name := "d", path := ["r"] ++ ["d"],
           size := (sumDir false (.ok [.file "g" 3 true])).size,
           files := (sumDir false (.ok [.file "g" 3 true])).files,
           dirs := (sumDir false (.ok [.file "g" 3 true])).dirs,
           children := [],
           err := (sumDir false (.ok [.file "g" 3 true])).err,
           scanned := false } 0]) ∧
    ((scanSession false false [] ["r"]
        (.ok [.file "f" 5 true, .dir "d" [.file "g" 3 true],
          .baddir "x" 9]) 0).1.getLast? =
      some (.scanDone (sessionNode false ["r"]
        [.file "f" 5 true, .dir "d" [.file "g" 3 true],
          .baddir "x" 9]) 0)) := by
  have h := C3_session_event_protocol false [] ["r"]
    [.file "f" 5 true, .dir "d" [.file "g" 3 true], .baddir "x" 9] 0
    (by decide) (by decide)
  exact ⟨(h.1 "f" 5 true (by simp)).1,
    (h.2.1 "d" [.file "g" 3 true] (by simp)).1,
    h.2.2.2.2⟩

end DiskTree
